import Mathlib

/-!
Verification of the Clarissa assistant core against its specification.

The development shallowly embeds the parts of the code base the claims
touch:

* the streaming output normalizer of `src/llm/providers/lmstudio.ts`
  (`StreamingOutputParser.processChunk`, `parseModelOutput`);
* the on-device adapter policies of `apple-ai.ts` (tool-count ceiling,
  null-response retry);
* the tool registry of `src/tools/index.ts` (`getDefinitionsLimited`,
  `execute`);
* the provider registry (`setActiveProvider`) and the local-llama model
  cache (`initialize`/`shutdown` reference counting);
* the Swift agent (`Agent.run`, `Agent.trimHistoryIfNeeded`,
  `TokenBudget.estimate`).

Strings are modelled as `List Char`; JavaScript's `indexOf`/`slice` are
modelled index-for-index.  Effectful call structure (which backend calls
happen, which tools get executed) is made explicit through returned call
logs and event lists.
-/

namespace Clarissa

/-! ## String scanning primitives (JavaScript `String.prototype.indexOf`) -/

/-- `occursAt needle hay i` holds when `needle` occurs in `hay` starting at
index `i` (JavaScript substring match at a fixed position). -/
def occursAt (needle hay : List Char) (i : Nat) : Bool :=
  needle.isPrefixOf (hay.drop i)

/-- JavaScript `hay.indexOf(needle, start)`: the least index `i ≥ start` at
which `needle` occurs in `hay`, if any. -/
def strIndexOfFrom (needle hay : List Char) (start : Nat) : Option Nat :=
  (List.range (hay.length + 1)).find? (fun i => decide (start ≤ i) && occursAt needle hay i)

/-- JavaScript `hay.indexOf(needle)`. -/
def strIndexOf (needle hay : List Char) : Option Nat :=
  strIndexOfFrom needle hay 0

/-- JavaScript `hay.includes(needle)`. -/
def strContains (needle hay : List Char) : Bool :=
  (strIndexOf needle hay).isSome

/-! ## Sentinel markers used by the normalizer (lmstudio.ts) -/

def channelMarker : List Char := "<|channel|>".data

def messageMarker : List Char := "<|message|>".data

/-- `"<|channel|>final<|message|>"`, the final-channel start marker. -/
def finalMarker : List Char := "<|channel|>final<|message|>".data

/-- The end markers scanned by `StreamingOutputParser.processChunk`
(`["<|end|>", "<|start|>", "<|channel|>"]`, in source order). -/
def endMarkers : List (List Char) := ["<|end|>".data, "<|start|>".data, "<|channel|>".data]

/-! ## StreamingOutputParser (lmstudio.ts, lines 77-128) -/

/-- The mutable state of `StreamingOutputParser`: the accumulated raw
buffer and the emitted-length cursor. -/
structure ParserState where
  buffer : List Char
  emittedLength : Nat
deriving DecidableEq, Repr

/-- A fresh `StreamingOutputParser` (`buffer = ""`, `emittedLength = 0`). -/
def initialParserState : ParserState := ⟨[], 0⟩

/-- The `contentEnd` computation of `processChunk`: starting from
`buffer.length`, lower it to any end-marker occurrence at or after
`contentStart` that is smaller than the current bound. -/
def computeContentEnd (buffer : List Char) (contentStart : Nat) : Nat :=
  endMarkers.foldl
    (fun contentEnd marker =>
      match strIndexOfFrom marker buffer contentStart with
      | some markerIndex => if markerIndex < contentEnd then markerIndex else contentEnd
      | none => contentEnd)
    buffer.length

/-- `StreamingOutputParser.processChunk`: append the chunk to the buffer;
emit nothing until the final-channel marker is found; afterwards emit the
unemitted suffix of the current final-channel content. -/
def processChunk (st : ParserState) (chunk : List Char) : ParserState × List Char :=
  let buffer := st.buffer ++ chunk
  match strIndexOf finalMarker buffer with
  | none => (⟨buffer, st.emittedLength⟩, [])
  | some finalIndex =>
    let contentStart := finalIndex + finalMarker.length
    let contentEnd := computeContentEnd buffer contentStart
    let currentContent := (buffer.take contentEnd).drop contentStart
    if st.emittedLength < currentContent.length then
      (⟨buffer, currentContent.length⟩, currentContent.drop st.emittedLength)
    else
      (⟨buffer, st.emittedLength⟩, [])

/-- Feed a sequence of chunks to the parser, concatenating everything the
calls to `processChunk` return. -/
def processChunks (st : ParserState) : List (List Char) → ParserState × List Char
  | [] => (st, [])
  | c :: cs =>
    let r := processChunk st c
    let rest := processChunks r.1 cs
    (rest.1, r.2 ++ rest.2)

/-! ## Full parse of the accumulated buffer (`parseModelOutput`) -/

/-- A tool call extracted from the commentary channel
(`{name, arguments}` with `arguments` still raw JSON text). -/
structure ParsedToolCall where
  name : List Char
  arguments : List Char
deriving DecidableEq, Repr

/-- The result of `parseModelOutput`. -/
structure ParsedOutput where
  content : List Char
  toolCalls : List ParsedToolCall
deriving DecidableEq, Repr

/-- JavaScript `String.prototype.trim` (whitespace at both ends removed;
modelled with Lean's `Char.isWhitespace`). -/
def jsTrim (s : List Char) : List Char :=
  ((s.dropWhile Char.isWhitespace).reverse.dropWhile Char.isWhitespace).reverse

/-- The final-channel regex
`/<\|channel\|>final<\|message\|>([\s\S]*?)(?:<\|end\|>|<\|start\|>|$)/`:
content runs from the first final-marker occurrence to the nearest
following `<|end|>` or `<|start|>` (or end of string), then is trimmed. -/
def extractFinalContent (raw : List Char) : Option (List Char) :=
  match strIndexOf finalMarker raw with
  | none => none
  | some p =>
    let contentStart := p + finalMarker.length
    let e1 := match strIndexOfFrom "<|end|>".data raw contentStart with
      | some i => i
      | none => raw.length
    let e2 := match strIndexOfFrom "<|start|>".data raw contentStart with
      | some i => i
      | none => raw.length
    some (jsTrim ((raw.take (min e1 e2)).drop contentStart))

/-- JSON-string body scanner (after the opening quote), used to model
`JSON.parse` validity of the captured tool arguments. -/
def jsonStringBody : List Char → Option (List Char)
  | [] => none
  | '"' :: rest => some rest
  | '\\' :: _ :: rest => jsonStringBody rest
  | _ :: rest => jsonStringBody rest

def isJsonNumChar (c : Char) : Bool :=
  c.isDigit || c = '-' || c = '+' || c = '.' || c = 'e' || c = 'E'

def jsonNumber (s : List Char) : Option (List Char) :=
  match s with
  | [] => none
  | c :: _ =>
    if c.isDigit || c = '-' then some (s.drop (s.takeWhile isJsonNumChar).length)
    else none

def skipJsonWs (s : List Char) : List Char :=
  s.dropWhile (fun c => c = ' ' || c = '\t' || c = '\n' || c = '\r')

mutual

/-- Fuel-bounded recursive-descent check that a JSON value starts the
input, returning the remaining input (models `JSON.parse` acceptance). -/
def jsonValue : Nat → List Char → Option (List Char)
  | 0, _ => none
  | fuel + 1, s =>
    match skipJsonWs s with
    | [] => none
    | '"' :: rest => jsonStringBody rest
    | '\x7b' :: rest =>
      (match skipJsonWs rest with
       | '\x7d' :: rest2 => some rest2
       | _ => jsonMembers fuel rest)
    | '[' :: rest =>
      (match skipJsonWs rest with
       | ']' :: rest2 => some rest2
       | _ => jsonElements fuel rest)
    | c :: rest =>
      if "true".data.isPrefixOf (c :: rest) then some ((c :: rest).drop 4)
      else if "false".data.isPrefixOf (c :: rest) then some ((c :: rest).drop 5)
      else if "null".data.isPrefixOf (c :: rest) then some ((c :: rest).drop 4)
      else jsonNumber (c :: rest)

/-- Object members: `string : value` separated by commas, closed by a
brace. -/
def jsonMembers : Nat → List Char → Option (List Char)
  | 0, _ => none
  | fuel + 1, s =>
    match skipJsonWs s with
    | '"' :: rest =>
      (match jsonStringBody rest with
       | none => none
       | some s1 =>
         match skipJsonWs s1 with
         | ':' :: s2 =>
           (match jsonValue fuel s2 with
            | none => none
            | some s3 =>
              match skipJsonWs s3 with
              | ',' :: s4 => jsonMembers fuel s4
              | '\x7d' :: rest2 => some rest2
              | _ => none)
         | _ => none)
    | _ => none

/-- Array elements: values separated by commas, closed by a bracket. -/
def jsonElements : Nat → List Char → Option (List Char)
  | 0, _ => none
  | fuel + 1, s =>
    match jsonValue fuel s with
    | none => none
    | some s1 =>
      match skipJsonWs s1 with
      | ',' :: s2 => jsonElements fuel s2
      | ']' :: rest => some rest
      | _ => none

end

/-- `JSON.parse(args)` succeeds: one JSON value followed only by
whitespace. -/
def jsonParses (s : List Char) : Bool :=
  match jsonValue (s.length + 1) s with
  | some rest => (skipJsonWs rest).isEmpty
  | none => false

/-- Tool-name normalization `name.replace(/\.(run|execute|call)$/, "")`. -/
def normalizeToolName (nm : List Char) : List Char :=
  if ".run".data.isSuffixOf nm then nm.take (nm.length - 4)
  else if ".execute".data.isSuffixOf nm then nm.take (nm.length - 8)
  else if ".call".data.isSuffixOf nm then nm.take (nm.length - 5)
  else nm

def commentaryMarker : List Char := "<|channel|>commentary".data

/-- JavaScript regex `\s`. -/
def isJsSpace (c : Char) : Bool :=
  c = ' ' || c = '\t' || c = '\n' || c = '\r' || c = '\x0b' || c = '\x0c'

/-- `[\w.]` (word characters or a dot), the tool-name character class. -/
def isJsWordDotChar (c : Char) : Bool :=
  c.isAlphanum || c = '_' || c = '.'

def dropPrefixOpt (pat s : List Char) : Option (List Char) :=
  if pat.isPrefixOf s then some (s.drop pat.length) else none

/-- One attempted match of the tool-call regex
`<\|channel\|>commentary\s+to=([\w.]+)(?:\s+code|\s*<\|constrain\|>json)<\|message\|>(\{[\s\S]*?\})`
at the head of `s`; on success returns the raw captured name, the
captured argument text and the input remaining after the match. -/
def matchCommentaryTail (s : List Char) :
    Option (List Char × List Char × List Char) :=
  match dropPrefixOpt commentaryMarker s with
  | none => none
  | some s1 =>
    let ws := s1.takeWhile isJsSpace
    if ws.isEmpty then none else
    match dropPrefixOpt "to=".data (s1.drop ws.length) with
    | none => none
    | some s2 =>
      let nm := s2.takeWhile isJsWordDotChar
      if nm.isEmpty then none else
      let s3 := s2.drop nm.length
      let wsA := s3.takeWhile isJsSpace
      let altA : Option (List Char) :=
        if wsA.isEmpty then none
        else dropPrefixOpt "code".data (s3.drop wsA.length)
      let alt : Option (List Char) :=
        match altA with
        | some r => some r
        | none => dropPrefixOpt "<|constrain|>json".data (s3.drop wsA.length)
      match alt with
      | none => none
      | some s4 =>
        match dropPrefixOpt messageMarker s4 with
        | none => none
        | some s5 =>
          match s5 with
          | '\x7b' :: body =>
            let upto := body.takeWhile (fun c => !(c = '\x7d'))
            if upto.length < body.length then
              some (nm, '\x7b' :: (upto ++ ['\x7d']), body.drop (upto.length + 1))
            else none
          | _ => none

/-- Global scan of the tool-call regex: try a match at each position,
resuming after the end of each successful match; arguments failing the
JSON validity check are discarded. -/
def extractToolCallsAux : Nat → List Char → List ParsedToolCall
  | 0, _ => []
  | fuel + 1, s =>
    match s with
    | [] => []
    | _ :: rest =>
      match matchCommentaryTail s with
      | some (nm, args, after) =>
        (if jsonParses args then [⟨normalizeToolName nm, args⟩] else [])
          ++ extractToolCallsAux fuel after
      | none => extractToolCallsAux fuel rest

def extractToolCalls (raw : List Char) : List ParsedToolCall :=
  extractToolCallsAux raw.length raw

/-- `parseModelOutput` (lmstudio.ts, lines 30-71): pass input without
sentinel markers through unchanged; otherwise extract the final-channel
content and the commentary-channel tool calls. -/
def parseModelOutput (raw : List Char) : ParsedOutput :=
  if !(strContains channelMarker raw) && !(strContains messageMarker raw) then
    ⟨raw, []⟩
  else
    ⟨(extractFinalContent raw).getD [], extractToolCalls raw⟩

/-- `StreamingOutputParser.getFullOutput`. -/
def getFullOutput (st : ParserState) : ParsedOutput :=
  parseModelOutput st.buffer

/-! ## Claim C1: chunk-boundary invariance on the sentinel example -/

/-- The spec's sentinel example, with the code's concrete markers. -/
def sExample : List Char :=
  "<|channel|>analysis<|message|>x<|end|><|start|>a<|channel|>final<|message|>Hello".data

/-- The expected total emission for the sentinel example. -/
def helloList : List Char := "Hello".data

theorem sExample_length : sExample.length = 80 := by decide

theorem sExample_drop_75 : sExample.drop 75 = helloList := by decide

set_option maxRecDepth 10000 in
theorem finalMarker_absent_in_short_take :
    ∀ n : Nat, n < 75 → strIndexOf finalMarker (sExample.take n) = none := by decide

set_option maxRecDepth 10000 in
theorem finalMarker_found_in_long_take :
    ∀ m : Nat, m < 81 → 75 ≤ m → strIndexOf finalMarker (sExample.take m) = some 48 := by decide

set_option maxRecDepth 10000 in
theorem contentEnd_of_long_take :
    ∀ m : Nat, m < 81 → 75 ≤ m → computeContentEnd (sExample.take m) 75 = m := by decide

theorem take_append_middle {α : Type} (n m : Nat) (h : n ≤ m) (l : List α) :
    l.take n ++ (l.take m).drop n = l.take m := by
  have h1 : (l.take m).take n = l.take n := by
    rw [List.take_take, Nat.min_eq_left h]
  calc l.take n ++ (l.take m).drop n
      = (l.take m).take n ++ (l.take m).drop n := by rw [h1]
    _ = l.take m := List.take_append_drop ..

theorem take_drop_append_drop {α : Type} (a b : Nat) (h : a ≤ b) (l : List α) :
    (l.take b).drop a ++ l.drop b = l.drop a := by
  have h2 : l.drop b = (l.drop a).drop (b - a) := by
    rw [List.drop_drop, Nat.add_sub_cancel' h]
  rw [List.drop_take, h2]
  exact List.take_append_drop ..

/-- One `processChunk` step on the sentinel example: feeding the slice of
`sExample` between positions `n` and `m` to a parser whose buffer is the
length-`n` prefix advances the buffer to the length-`m` prefix, advances
the cursor from `n - 75` to `m - 75`, and emits exactly the corresponding
slice of `"Hello"`. -/
theorem processChunk_on_example (n m : Nat) (hnm : n ≤ m) (hm : m ≤ 80) :
    processChunk ⟨sExample.take n, n - 75⟩ ((sExample.take m).drop n)
      = (⟨sExample.take m, m - 75⟩, (helloList.take (m - 75)).drop (n - 75)) := by
  have hbuf : sExample.take n ++ (sExample.take m).drop n = sExample.take m :=
    take_append_middle n m hnm _
  simp only [processChunk, hbuf]
  by_cases hm75 : m < 75
  · rw [finalMarker_absent_in_short_take m hm75]
    have hn0 : n - 75 = 0 := by omega
    have hm0 : m - 75 = 0 := by omega
    simp [hn0, hm0]
  · push_neg at hm75
    simp only [finalMarker_found_in_long_take m (by omega) hm75]
    have hfm : (48 : Nat) + finalMarker.length = 75 := by decide
    rw [hfm, contentEnd_of_long_take m (by omega) hm75]
    have hlen : (sExample.take m).length = m := by
      rw [List.length_take, sExample_length, Nat.min_eq_left hm]
    have htake : (sExample.take m).take m = sExample.take m := by
      rw [List.take_take, Nat.min_self]
    rw [htake]
    have hcur : (sExample.take m).drop 75 = helloList.take (m - 75) := by
      rw [List.drop_take, sExample_drop_75]
    rw [hcur]
    have hcurlen : (helloList.take (m - 75)).length = m - 75 := by
      rw [List.length_take]
      have : m - 75 ≤ 5 := by omega
      simp [helloList]
      omega
    rw [hcurlen]
    by_cases hlt : n - 75 < m - 75
    · simp [hlt]
    · have heq75 : n - 75 = m - 75 := by omega
      have hdrop : (helloList.take (m - 75)).drop (n - 75) = [] := by
        apply List.drop_eq_nil_of_le
        rw [hcurlen]
        omega
      simp [hlt, heq75, hdrop]

/-- Running the parser from the length-`n`-prefix state on any chunk
sequence whose concatenation is the remaining suffix of `sExample` yields
the remaining suffix of `"Hello"`. -/
theorem processChunks_on_example :
    ∀ (chunks : List (List Char)) (n : Nat), n ≤ 80 →
      chunks.flatten = sExample.drop n →
      processChunks ⟨sExample.take n, n - 75⟩ chunks
        = (⟨sExample, 5⟩, helloList.drop (n - 75)) := by
  intro chunks
  induction chunks with
  | nil =>
    intro n hn hj
    have hlen : (sExample.drop n).length = 0 := by
      rw [← hj]; rfl
    rw [List.length_drop, sExample_length] at hlen
    have hn80 : n = 80 := by omega
    subst hn80
    have h1 : sExample.take 80 = sExample := by decide
    have h2 : helloList.drop (80 - 75) = ([] : List Char) := by decide
    rw [h1, h2]
    rfl
  | cons c cs ih =>
    intro n hn hj
    have hflat : c ++ cs.flatten = sExample.drop n := by simpa using hj
    have hlenc : c.length + cs.flatten.length = 80 - n := by
      have h := congrArg List.length hflat
      rw [List.length_append, List.length_drop, sExample_length] at h
      exact h
    obtain ⟨k, hk⟩ : ∃ k, c.length = k := ⟨_, rfl⟩
    have hm : n + k ≤ 80 := by omega
    have hc_eq : c = (sExample.take (n + k)).drop n := by
      rw [List.drop_take]
      have h1 : n + k - n = k := by omega
      rw [h1, ← hk, ← hflat, List.take_left]
    have hcs : cs.flatten = sExample.drop (n + k) := by
      have h := congrArg (List.drop c.length) hflat
      rw [List.drop_append_of_le_length (Nat.le_refl _)] at h
      simp only [List.drop_length, List.nil_append] at h
      rw [h, List.drop_drop]
      congr 1
      omega
    simp only [processChunks]
    rw [hc_eq, processChunk_on_example n (n + k) (by omega) hm]
    rw [ih (n + k) hm hcs]
    refine Prod.ext rfl ?_
    show (helloList.take (n + k - 75)).drop (n - 75)
        ++ helloList.drop (n + k - 75) = helloList.drop (n - 75)
    exact take_drop_append_drop (n - 75) (n + k - 75) (by omega) helloList

/-- Claim C1: streaming-normalizer chunk-boundary invariance.  For the raw
backend output
`"<|channel|>analysis<|message|>x<|end|><|start|>a<|channel|>final<|message|>Hello"`,
every way of splitting it into an ordered sequence of chunks fed to a
fresh `StreamingOutputParser` via `processChunk` makes the concatenation
of all returned strings equal `"Hello"`, with no duplication and no
omission. -/
theorem c1_chunk_boundary_invariance (chunks : List (List Char))
    (h : chunks.flatten = sExample) :
    (processChunks initialParserState chunks).2 = helloList := by
  have hinit : initialParserState = ⟨sExample.take 0, 0 - 75⟩ := rfl
  rw [hinit, processChunks_on_example chunks 0 (by omega) (by simpa using h)]
  rfl

/-- Witness for C1: a concrete two-chunk split that cuts the final-channel
marker in half. -/
theorem c1_chunk_boundary_invariance_witness :
    (["<|channel|>analysis<|message|>x<|end|><|start|>a<|chan".data,
      "nel|>final<|message|>Hello".data] : List (List Char)).flatten = sExample
    ∧ (processChunks initialParserState
        ["<|channel|>analysis<|message|>x<|end|><|start|>a<|chan".data,
         "nel|>final<|message|>Hello".data]).2 = helloList :=
  ⟨by decide, c1_chunk_boundary_invariance _ (by decide)⟩

/-! ## Claim C2: pass-through behaviour on marker-free input -/

theorem occursAt_lt {needle hay : List Char} {i : Nat} (hne : needle ≠ [])
    (h : occursAt needle hay i = true) : i < hay.length + 1 := by
  by_contra hlt
  push_neg at hlt
  unfold occursAt at h
  rw [List.drop_eq_nil_of_le (by omega)] at h
  have h2 := List.isPrefixOf_iff_prefix.mp h
  rw [List.prefix_nil] at h2
  exact hne h2

theorem strContains_of_occursAt {needle hay : List Char} {i : Nat} (hne : needle ≠ [])
    (h : occursAt needle hay i = true) : strContains needle hay = true := by
  unfold strContains strIndexOf strIndexOfFrom
  cases hf : (List.range (hay.length + 1)).find?
      (fun j => decide (0 ≤ j) && occursAt needle hay j) with
  | some v => rfl
  | none =>
    exfalso
    rw [List.find?_eq_none] at hf
    exact hf i (List.mem_range.mpr (occursAt_lt hne h)) (by simp [h])

theorem prefix_drop_mono {b input : List Char} (h : b <+: input) (i : Nat) :
    b.drop i <+: input.drop i := by
  obtain ⟨t, rfl⟩ := h
  by_cases hi : i ≤ b.length
  · rw [List.drop_append_of_le_length hi]
    exact List.prefix_append ..
  · have hb : b.drop i = [] := List.drop_eq_nil_of_le (by omega)
    rw [hb]
    exact List.nil_prefix

/-- If the whole raw output never contains `"<|channel|>"`, then no prefix
of it (hence no intermediate buffer) contains the final-channel marker. -/
theorem no_final_of_no_channel {input b : List Char} (hpre : b <+: input)
    (hch : strContains channelMarker input = false) :
    strIndexOf finalMarker b = none := by
  unfold strIndexOf strIndexOfFrom
  rw [List.find?_eq_none]
  intro i _ hp
  rw [Bool.and_eq_true] at hp
  have hocc : occursAt finalMarker b i = true := hp.2
  have h1 : finalMarker <+: b.drop i := List.isPrefixOf_iff_prefix.mp hocc
  have hcf : channelMarker <+: finalMarker := by decide
  have h4 : channelMarker <+: input.drop i :=
    (hcf.trans h1).trans (prefix_drop_mono hpre i)
  have h5 : occursAt channelMarker input i = true := List.isPrefixOf_iff_prefix.mpr h4
  have h6 := strContains_of_occursAt (by decide) h5
  rw [hch] at h6
  exact Bool.noConfusion h6

/-- On raw output that never contains `"<|channel|>"`, the streaming
parser emits nothing, whatever the chunking. -/
theorem processChunks_no_final :
    ∀ (chunks : List (List Char)) (st : ParserState) (input : List Char),
      st.buffer ++ chunks.flatten <+: input →
      strContains channelMarker input = false →
      (processChunks st chunks).2 = [] := by
  intro chunks
  induction chunks with
  | nil => intro st input _ _; rfl
  | cons c cs ih =>
    intro st input h hch
    have hpre1 : (st.buffer ++ c) ++ cs.flatten <+: input := by
      simpa [List.append_assoc] using h
    have hpre2 : st.buffer ++ c <+: input :=
      List.IsPrefix.trans (List.prefix_append ..) hpre1
    have hnone : strIndexOf finalMarker (st.buffer ++ c) = none :=
      no_final_of_no_channel hpre2 hch
    simp only [processChunks, processChunk, hnone, List.nil_append]
    exact ih ⟨st.buffer ++ c, st.emittedLength⟩ input hpre1 hch

/-- Counterexample to claim C2 as stated: the marker-free input
`"Hello"`, delivered as a single chunk, makes `processChunk` emit nothing
at all — the concatenation of the incremental emissions is empty, not
the raw input.  (The streaming parser withholds everything until the
final-channel marker appears; pass-through happens only in the
end-of-call full parse.) -/
theorem c2_counterexample :
    strContains channelMarker "Hello".data = false
    ∧ strContains messageMarker "Hello".data = false
    ∧ (["Hello".data] : List (List Char)).flatten = "Hello".data
    ∧ (processChunks initialParserState ["Hello".data]).2 ≠ "Hello".data := by decide

/-- Claim C2 (amended): for every input containing no sentinel markers
(no `"<|channel|>"` and no `"<|message|>"`) and every chunking of it, the
concatenation of the incremental emissions of
`StreamingOutputParser.processChunk` is the EMPTY string (not the raw
input), while the end-of-call full parse `parseModelOutput` is
pass-through and returns the raw text as content with an empty
tool-invocation list. -/
theorem c2_passthrough_amended (input : List Char) (chunks : List (List Char))
    (hj : chunks.flatten = input)
    (hch : strContains channelMarker input = false)
    (hmsg : strContains messageMarker input = false) :
    (processChunks initialParserState chunks).2 = []
    ∧ parseModelOutput input = ⟨input, []⟩ := by
  constructor
  · refine processChunks_no_final chunks initialParserState input ?_ hch
    show [] ++ chunks.flatten <+: input
    rw [List.nil_append, hj]
  · unfold parseModelOutput
    rw [hch, hmsg]
    rfl

/-- Witness for the amended C2 on the marker-free input `"hi"` split in
two chunks. -/
theorem c2_passthrough_amended_witness :
    (processChunks initialParserState ["h".data, "i".data]).2 = []
    ∧ parseModelOutput "hi".data = ⟨"hi".data, []⟩ :=
  c2_passthrough_amended "hi".data ["h".data, "i".data] (by decide) (by decide) (by decide)

/-! ## The Swift agent data model (Agent.swift)

The `Message` value type itself is not among the provided sources (only
its uses are); its shape is modelled from the spec's data model (§3) and
the constructor calls in `Agent.swift`. -/

inductive Role where
  | system
  | user
  | assistant
  | tool
deriving DecidableEq, Repr

structure ToolCall where
  id : String
  name : String
  arguments : String
deriving DecidableEq, Repr

/-- Modelled from the spec: `Message = {role, content, tool_invocations?,
tool_call_id?, name?}`; the struct definition is outside the provided
sources, its constructors (`Message.system/user/assistant/tool`) appear
in `Agent.swift`. -/
structure Message where
  role : Role
  content : String
  toolCalls : List ToolCall
  toolCallId : Option String
  toolName : Option String
deriving DecidableEq, Repr

def Message.systemMsg (c : String) : Message := ⟨Role.system, c, [], none, none⟩

def Message.userMsg (c : String) : Message := ⟨Role.user, c, [], none, none⟩

def Message.assistantMsg (c : String) (tcs : List ToolCall) : Message :=
  ⟨Role.assistant, c, tcs, none, none⟩

def Message.toolMsg (callId name content : String) : Message :=
  ⟨Role.tool, content, [], some callId, some name⟩

/-! ## TokenBudget (Agent.swift, lines 13-38) -/

namespace TokenBudget

def totalContextWindow : Nat := 4096

def systemReserve : Nat := 300

def responseReserve : Nat := 1500

/-- `4096 - 300 - 1500 = 2296`. -/
def maxHistoryTokens : Nat := totalContextWindow - systemReserve - responseReserve

/-- `TokenBudget.estimate(_ text:)`: mainly-ASCII text costs about one
token per 4 characters (at least 1), other text one token per
character. -/
def estimate (text : String) : Nat :=
  let asciiCount := (text.data.filter (fun c => c.toNat ≤ 127)).length
  if asciiCount > text.data.length / 2 then max 1 (text.data.length / 4)
  else text.data.length

/-- `TokenBudget.estimate(_ messages:)`: sum of the per-content
estimates. -/
def estimateMessages (messages : List Message) : Nat :=
  messages.foldl (fun acc m => acc + estimate m.content) 0

end TokenBudget

/-- Combined estimate of the non-system entries of a transcript. -/
def estimateNonSystem (messages : List Message) : Nat :=
  TokenBudget.estimateMessages (messages.filter (fun m => !(m.role == Role.system)))

/-! ## Agent.trimHistoryIfNeeded (Agent.swift, lines 119-138) -/

/-- `messages.firstIndex(where: { $0.role != .system })` followed by
`messages.remove(at:)`: the first non-system message together with the
transcript with it removed. -/
def extractFirstNonSystem : List Message → Option (Message × List Message)
  | [] => none
  | m :: ms =>
    if m.role ≠ Role.system then some (m, ms)
    else
      match extractFirstNonSystem ms with
      | some (r, rest) => some (r, m :: rest)
      | none => none

theorem extractFirstNonSystem_length :
    ∀ {messages : List Message} {m : Message} {rest : List Message},
      extractFirstNonSystem messages = some (m, rest) →
      rest.length + 1 = messages.length := by
  intro messages
  induction messages with
  | nil => intro m rest h; exact Option.noConfusion h
  | cons hd tl ih =>
    intro m rest h
    by_cases hr : hd.role ≠ Role.system
    · simp only [extractFirstNonSystem, if_pos hr] at h
      cases h
      rfl
    · simp only [extractFirstNonSystem, if_neg hr] at h
      cases hex : extractFirstNonSystem tl with
      | none => rw [hex] at h; exact Option.noConfusion h
      | some p =>
        rw [hex] at h
        cases p with
        | mk r rest₀ =>
          simp only at h
          cases h
          have := ih hex
          simp [← this]

/-- The trimming loop of `trimHistoryIfNeeded`: while the running token
count exceeds the budget and more than 3 messages remain, remove the
first non-system message and subtract its estimate. -/
def trimLoop (messages : List Message) (tokenCount : Int) : List Message :=
  if tokenCount > (TokenBudget.maxHistoryTokens : Int) ∧ messages.length > 3 then
    match h : extractFirstNonSystem messages with
    | some (removed, rest) =>
      trimLoop rest (tokenCount - (TokenBudget.estimate removed.content : Int))
    | none => messages
  else messages
termination_by messages.length
decreasing_by
  have := extractFirstNonSystem_length h
  omega

/-- `Agent.trimHistoryIfNeeded`: transcripts of at most 2 entries are
left untouched; otherwise run the trimming loop starting from the
combined non-system estimate. -/
def trimHistoryIfNeeded (messages : List Message) : List Message :=
  if messages.length ≤ 2 then messages
  else trimLoop messages (estimateNonSystem messages : Int)

/-- Spec-side reference loop for claim C3, written from the claim's own
words: repeatedly remove the oldest non-system entry while the
recomputed combined estimate of the non-system entries exceeds
`maxHistoryTokens` and more than 3 entries remain. -/
def trimSpecLoop (messages : List Message) : List Message :=
  if estimateNonSystem messages > TokenBudget.maxHistoryTokens ∧ messages.length > 3 then
    match h : extractFirstNonSystem messages with
    | some (_, rest) => trimSpecLoop rest
    | none => messages
  else messages
termination_by messages.length
decreasing_by
  have := extractFirstNonSystem_length h
  omega

/-- Spec-side reference trim for claim C3. -/
def trimSpec (messages : List Message) : List Message :=
  if messages.length ≤ 2 then messages else trimSpecLoop messages

/-! ## Claim C3: history-trimming lemmas -/

theorem estimateMessages_shift (l : List Message) (a : Nat) :
    l.foldl (fun acc m => acc + TokenBudget.estimate m.content) a
      = a + TokenBudget.estimateMessages l := by
  induction l generalizing a with
  | nil => simp [TokenBudget.estimateMessages]
  | cons hd tl ih =>
    show List.foldl _ (a + _) tl = a + TokenBudget.estimateMessages (hd :: tl)
    rw [ih]
    show _ = a + List.foldl _ (0 + _) tl
    rw [ih (0 + TokenBudget.estimate hd.content)]
    omega

theorem estimateMessages_cons (m : Message) (l : List Message) :
    TokenBudget.estimateMessages (m :: l)
      = TokenBudget.estimate m.content + TokenBudget.estimateMessages l := by
  show List.foldl _ (0 + _) l = _
  rw [estimateMessages_shift]
  omega

theorem estimateNonSystem_cons_system {m : Message} (h : m.role = Role.system)
    (l : List Message) : estimateNonSystem (m :: l) = estimateNonSystem l := by
  simp [estimateNonSystem, List.filter, h]

theorem estimateNonSystem_cons_nonsystem {m : Message} (h : m.role ≠ Role.system)
    (l : List Message) :
    estimateNonSystem (m :: l) = TokenBudget.estimate m.content + estimateNonSystem l := by
  have hb : (m.role == Role.system) = false := by
    cases hr : m.role <;> simp_all
  simp [estimateNonSystem, List.filter, hb, estimateMessages_cons]

theorem extract_estimate :
    ∀ {messages : List Message} {m : Message} {rest : List Message},
      extractFirstNonSystem messages = some (m, rest) →
      estimateNonSystem messages
        = TokenBudget.estimate m.content + estimateNonSystem rest := by
  intro messages
  induction messages with
  | nil => intro m rest h; exact Option.noConfusion h
  | cons hd tl ih =>
    intro m rest h
    by_cases hr : hd.role ≠ Role.system
    · simp only [extractFirstNonSystem, if_pos hr] at h
      cases h
      exact estimateNonSystem_cons_nonsystem hr tl
    · have hreq : hd.role = Role.system := of_not_not hr
      simp only [extractFirstNonSystem, if_neg hr] at h
      cases hex : extractFirstNonSystem tl with
      | none => rw [hex] at h; exact Option.noConfusion h
      | some p =>
        rw [hex] at h
        cases p with
        | mk r rest₀ =>
          simp only at h
          cases h
          rw [estimateNonSystem_cons_system hreq, ih hex,
            estimateNonSystem_cons_system hreq]

theorem trimLoop_stop {messages : List Message} {tok : Int}
    (h : ¬(tok > (TokenBudget.maxHistoryTokens : Int) ∧ messages.length > 3)) :
    trimLoop messages tok = messages := by
  unfold trimLoop
  rw [if_neg h]

theorem trimSpecLoop_stop {messages : List Message}
    (h : ¬(estimateNonSystem messages > TokenBudget.maxHistoryTokens
            ∧ messages.length > 3)) :
    trimSpecLoop messages = messages := by
  unfold trimSpecLoop
  rw [if_neg h]

theorem trimLoop_step {messages : List Message} {tok : Int} {m : Message}
    {rest : List Message}
    (hcond : tok > (TokenBudget.maxHistoryTokens : Int) ∧ messages.length > 3)
    (hex : extractFirstNonSystem messages = some (m, rest)) :
    trimLoop messages tok
      = trimLoop rest (tok - (TokenBudget.estimate m.content : Int)) := by
  conv_lhs => unfold trimLoop
  rw [if_pos hcond]
  split
  · next removed rest' heq =>
    rw [hex] at heq
    cases heq
    rfl
  · next heq =>
    rw [hex] at heq
    exact Option.noConfusion heq

theorem trimLoop_eq_spec :
    ∀ (n : Nat) (messages : List Message), messages.length ≤ n →
      trimLoop messages (estimateNonSystem messages : Int) = trimSpecLoop messages := by
  intro n
  induction n with
  | zero =>
    intro messages hlen
    have h : ¬(estimateNonSystem messages > TokenBudget.maxHistoryTokens
        ∧ messages.length > 3) := by omega
    rw [trimSpecLoop_stop h, trimLoop_stop]
    intro hc
    exact h ⟨by exact_mod_cast hc.1, hc.2⟩
  | succ n ih =>
    intro messages hlen
    by_cases hcond : estimateNonSystem messages > TokenBudget.maxHistoryTokens
        ∧ messages.length > 3
    · have hcond' : (estimateNonSystem messages : Int)
          > (TokenBudget.maxHistoryTokens : Int) ∧ messages.length > 3 :=
        ⟨by exact_mod_cast hcond.1, hcond.2⟩
      unfold trimLoop trimSpecLoop
      rw [if_pos hcond', if_pos hcond]
      cases hex : extractFirstNonSystem messages with
      | none => rfl
      | some p =>
        cases p with
        | mk removed rest =>
          simp only
          have hest := extract_estimate hex
          have htok : (estimateNonSystem messages : Int)
              - (TokenBudget.estimate removed.content : Int)
              = (estimateNonSystem rest : Int) := by
            rw [hest]
            push_cast
            omega
          rw [htok]
          have hlen2 := extractFirstNonSystem_length hex
          exact ih rest (by omega)
    · have hcond' : ¬((estimateNonSystem messages : Int)
          > (TokenBudget.maxHistoryTokens : Int) ∧ messages.length > 3) := by
        intro hc
        exact hcond ⟨by exact_mod_cast hc.1, hc.2⟩
      rw [trimLoop_stop hcond', trimSpecLoop_stop hcond]

theorem extractFirstNonSystem_cons_cons (sys r : Message) (rt : List Message)
    (hsys : sys.role = Role.system) (hr : r.role ≠ Role.system) :
    extractFirstNonSystem (sys :: r :: rt) = some (r, sys :: rt) := by
  simp [extractFirstNonSystem, hsys, hr]

theorem trimLoop_survival :
    ∀ (n : Nat) (rest : List Message) (sys : Message) (tok : Int),
      rest.length ≤ n →
      sys.role = Role.system → (∀ m ∈ rest, m.role ≠ Role.system) →
      2 ≤ rest.length →
      ∃ k, k + 2 ≤ rest.length ∧ trimLoop (sys :: rest) tok = sys :: rest.drop k := by
  intro n
  induction n with
  | zero => intro rest sys tok hlen _ _ h2; omega
  | succ n ih =>
    intro rest sys tok hlen hsys hrest h2
    by_cases hcond : tok > (TokenBudget.maxHistoryTokens : Int)
        ∧ (sys :: rest).length > 3
    · cases rest with
      | nil => simp at h2
      | cons r rt =>
        have hr : r.role ≠ Role.system := hrest r (by simp)
        have hrt : ∀ m ∈ rt, m.role ≠ Role.system := fun m hm => hrest m (by simp [hm])
        have h2rt : 2 ≤ rt.length := by
          have : (sys :: r :: rt).length > 3 := hcond.2
          simp at this
          omega
        have hex := extractFirstNonSystem_cons_cons sys r rt hsys hr
        rw [trimLoop_step hcond hex]
        obtain ⟨k, hk, heq⟩ := ih rt sys
          (tok - (TokenBudget.estimate r.content : Int)) (by simp at hlen; omega)
          hsys hrt h2rt
        refine ⟨k + 1, by simp; omega, ?_⟩
        rw [heq]
        rfl
    · exact ⟨0, by omega, by rw [trimLoop_stop hcond]; rfl⟩

/-- Claim C3: `trimHistoryIfNeeded` leaves a transcript of at most 2
messages unchanged; it equals the spec's loop that repeatedly removes
the oldest non-system message while the combined estimate of the
non-system messages exceeds `maxHistoryTokens` and more than 3 messages
remain; an under-budget transcript is unchanged; and on a transcript
with the system message first and everything else non-system, the
system message and the most recent user/assistant pair always survive
(the result is the system message followed by a suffix keeping at least
the last two entries). -/
theorem c3_history_trimming (messages : List Message) (sys : Message)
    (rest : List Message) :
    (messages.length ≤ 2 → trimHistoryIfNeeded messages = messages)
    ∧ (estimateNonSystem messages ≤ TokenBudget.maxHistoryTokens →
        trimHistoryIfNeeded messages = messages)
    ∧ trimHistoryIfNeeded messages = trimSpec messages
    ∧ (sys.role = Role.system → (∀ m ∈ rest, m.role ≠ Role.system) →
        2 ≤ rest.length →
        ∃ k, k + 2 ≤ rest.length
          ∧ trimHistoryIfNeeded (sys :: rest) = sys :: rest.drop k) := by
  refine ⟨?_, ?_, ?_, ?_⟩
  · intro h
    unfold trimHistoryIfNeeded
    rw [if_pos h]
  · intro h
    unfold trimHistoryIfNeeded
    by_cases h2 : messages.length ≤ 2
    · rw [if_pos h2]
    · rw [if_neg h2, trimLoop_stop]
      intro hc
      have : estimateNonSystem messages > TokenBudget.maxHistoryTokens := by
        exact_mod_cast hc.1
      omega
  · unfold trimHistoryIfNeeded trimSpec
    by_cases h2 : messages.length ≤ 2
    · rw [if_pos h2, if_pos h2]
    · rw [if_neg h2, if_neg h2]
      exact trimLoop_eq_spec messages.length messages (Nat.le_refl _)
  · intro hsys hrest h2
    obtain ⟨k, hk, heq⟩ := trimLoop_survival rest.length rest sys
      (estimateNonSystem (sys :: rest) : Int) (Nat.le_refl _) hsys hrest h2
    refine ⟨k, hk, ?_⟩
    unfold trimHistoryIfNeeded
    rw [if_neg (by simp; omega), heq]

/-- Witness for C3: a 2-entry transcript is untouched, and on a concrete
3-entry transcript the system message and the last user/assistant pair
survive. -/
theorem c3_history_trimming_witness :
    trimHistoryIfNeeded [Message.systemMsg "s", Message.userMsg "u"]
      = [Message.systemMsg "s", Message.userMsg "u"]
    ∧ ∃ k, k + 2 ≤ 2
      ∧ trimHistoryIfNeeded
          [Message.systemMsg "s", Message.userMsg "u", Message.assistantMsg "a" []]
        = Message.systemMsg "s" :: [Message.userMsg "u", Message.assistantMsg "a" []].drop k :=
  ⟨(c3_history_trimming [Message.systemMsg "s", Message.userMsg "u"]
      (Message.systemMsg "s") []).1 (by decide),
   (c3_history_trimming [] (Message.systemMsg "s")
      [Message.userMsg "u", Message.assistantMsg "a" []]).2.2.2
      (by decide) (by decide) (by decide)⟩

/-! ## Agent.run (Agent.swift, lines 141-235)

The provider's streamed response is modelled by its aggregate: the
concatenated content chunks and the final tool-call list.  Which tools
actually get executed is made observable through an execution log of
`(name, arguments)` pairs, appended exactly when `toolRegistry.execute`
is invoked. -/

structure AgentConfig where
  maxIterations : Nat
  autoApprove : Bool
deriving DecidableEq, Repr

inductive AgentError where
  | maxIterationsReached
  | noProvider
  | toolNotFound (name : String)
  | toolExecutionFailed (name : String) (description : String)
deriving DecidableEq, Repr

/-- The agent's collaborators: the tool registry's confirmation flag and
(throwing) execute, the confirmation callback, and the provider call. -/
structure RunEnv where
  requiresConfirmation : String → Bool
  execTool : String → String → Except String String
  confirm : String → String → Bool
  provider : List Message → String × List ToolCall

/-- The synthetic tool-result content appended on user rejection
(`{"rejected": true, "message": "User rejected this tool execution"}`). -/
def rejectedContent : String :=
  "\x7b\"rejected\": true, \"message\": \"User rejected this tool execution\"\x7d"

/-- The serialized error payload (`{"error": "<description>"}`) appended
when a tool's execute throws. -/
def toolErrorContent (desc : String) : String :=
  "\x7b\"error\": \"" ++ desc ++ "\"\x7d"

/-- The per-invocation loop of `Agent.run`: confirmation gating, then
execution with errors caught into a tool-result payload.  Returns the
grown transcript and the execution log. -/
def processToolCalls (env : RunEnv) (cfg : AgentConfig) :
    List ToolCall → List Message → List (String × String)
    → List Message × List (String × String)
  | [], msgs, log => (msgs, log)
  | tc :: rest, msgs, log =>
    if !cfg.autoApprove && env.requiresConfirmation tc.name
        && !(env.confirm tc.name tc.arguments) then
      processToolCalls env cfg rest
        (msgs ++ [Message.toolMsg tc.id tc.name rejectedContent]) log
    else
      match env.execTool tc.name tc.arguments with
      | Except.ok result =>
        processToolCalls env cfg rest
          (msgs ++ [Message.toolMsg tc.id tc.name result])
          (log ++ [(tc.name, tc.arguments)])
      | Except.error desc =>
        processToolCalls env cfg rest
          (msgs ++ [Message.toolMsg tc.id tc.name (toolErrorContent desc)])
          (log ++ [(tc.name, tc.arguments)])

/-- The ReAct loop of `Agent.run` with the remaining iteration budget as
fuel: one provider call per iteration, append the assistant message,
return on a tool-free response, otherwise process the invocations and
loop; exhausting the budget raises `maxIterationsReached`.  Also returns
the final transcript, the number of provider calls made, and the
execution log. -/
def runLoop (env : RunEnv) (cfg : AgentConfig) :
    Nat → List Message → Nat → List (String × String)
    → (Except AgentError String) × List Message × Nat × List (String × String)
  | 0, msgs, calls, log => (Except.error AgentError.maxIterationsReached, msgs, calls, log)
  | n + 1, msgs, calls, log =>
    let resp := env.provider msgs
    let msgs1 := msgs ++ [Message.assistantMsg resp.1 resp.2]
    if resp.2.isEmpty then (Except.ok resp.1, msgs1, calls + 1, log)
    else
      let pr := processToolCalls env cfg resp.2 msgs1 log
      runLoop env cfg n pr.1 (calls + 1) pr.2

/-- The pre-loop transcript preparation of `Agent.run`: upsert the system
message at index 0, append the user message, trim. -/
def upsertSystem (systemPrompt : String) (messages : List Message) : List Message :=
  match messages with
  | [] => [Message.systemMsg systemPrompt]
  | m :: rest =>
    if m.role = Role.system then Message.systemMsg systemPrompt :: rest
    else Message.systemMsg systemPrompt :: m :: rest

def setupMessages (systemPrompt userMessage : String) (messages : List Message) :
    List Message :=
  trimHistoryIfNeeded (upsertSystem systemPrompt messages ++ [Message.userMsg userMessage])

/-- `Agent.run` (with a provider configured; `noProvider` is raised
before any of this otherwise). -/
def run (env : RunEnv) (cfg : AgentConfig) (systemPrompt userMessage : String)
    (messages : List Message) :
    (Except AgentError String) × List Message × Nat × List (String × String) :=
  runLoop env cfg cfg.maxIterations (setupMessages systemPrompt userMessage messages) 0 []

/-! ## Claim C4: iteration ceiling -/

theorem processToolCalls_extends (env : RunEnv) (cfg : AgentConfig) :
    ∀ (tcs : List ToolCall) (msgs : List Message) (log : List (String × String)),
      msgs <+: (processToolCalls env cfg tcs msgs log).1 := by
  intro tcs
  induction tcs with
  | nil => intro msgs log; exact List.prefix_refl _
  | cons tc rest ih =>
    intro msgs log
    simp only [processToolCalls]
    by_cases hc : (!cfg.autoApprove && env.requiresConfirmation tc.name
        && !(env.confirm tc.name tc.arguments)) = true
    · rw [if_pos hc]
      exact List.IsPrefix.trans (List.prefix_append ..) (ih ..)
    · rw [if_neg hc]
      cases env.execTool tc.name tc.arguments with
      | ok r => exact List.IsPrefix.trans (List.prefix_append ..) (ih ..)
      | error d => exact List.IsPrefix.trans (List.prefix_append ..) (ih ..)

theorem runLoop_all_tools (env : RunEnv) (cfg : AgentConfig)
    (hp : ∀ ms, (env.provider ms).2 ≠ []) :
    ∀ (n : Nat) (msgs : List Message) (calls : Nat) (log : List (String × String)),
      ∃ M L, runLoop env cfg n msgs calls log
          = (Except.error AgentError.maxIterationsReached, M, calls + n, L)
        ∧ msgs <+: M := by
  intro n
  induction n with
  | zero => intro msgs calls log; exact ⟨msgs, log, rfl, List.prefix_refl _⟩
  | succ n ih =>
    intro msgs calls log
    have hne : (env.provider msgs).2.isEmpty = false := by
      cases hcall : (env.provider msgs).2 with
      | nil => exact absurd hcall (hp msgs)
      | cons a l => rfl
    simp only [runLoop, hne, Bool.false_eq_true, if_false]
    obtain ⟨M, L, heq, hpre⟩ := ih
      (processToolCalls env cfg (env.provider msgs).2
        (msgs ++ [Message.assistantMsg (env.provider msgs).1 (env.provider msgs).2]) log).1
      (calls + 1)
      (processToolCalls env cfg (env.provider msgs).2
        (msgs ++ [Message.assistantMsg (env.provider msgs).1 (env.provider msgs).2]) log).2
    refine ⟨M, L, ?_, ?_⟩
    · rw [heq]
      have harith : calls + 1 + n = calls + (n + 1) := by omega
      rw [harith]
    · exact List.IsPrefix.trans
        (List.IsPrefix.trans (List.prefix_append ..) (processToolCalls_extends ..)) hpre

/-- Claim C4: with `maxIterations = 3` and a backend whose every response
carries at least one tool invocation, `run` makes exactly 3 backend
calls, fails the turn with `maxIterationsReached` (so no 4th call
happens), and the transcript built up during those iterations is
preserved in the returned state (the post-setup transcript is a prefix
of it). -/
theorem c4_iteration_ceiling (env : RunEnv) (aa : Bool) (sp um : String)
    (msgs : List Message) (hp : ∀ ms, (env.provider ms).2 ≠ []) :
    (run env ⟨3, aa⟩ sp um msgs).1 = Except.error AgentError.maxIterationsReached
    ∧ (run env ⟨3, aa⟩ sp um msgs).2.2.1 = 3
    ∧ setupMessages sp um msgs <+: (run env ⟨3, aa⟩ sp um msgs).2.1 := by
  obtain ⟨M, L, heq, hpre⟩ :=
    runLoop_all_tools env ⟨3, aa⟩ hp 3 (setupMessages sp um msgs) 0 []
  unfold run
  rw [heq]
  exact ⟨rfl, rfl, hpre⟩

/-- A backend that always asks for one tool call, with permissive
gating, for the C4 witness. -/
def c4env : RunEnv :=
  ⟨fun _ => false, fun _ _ => Except.ok "ok", fun _ _ => true,
   fun _ => ("", [⟨"call_1", "calculator", "\x7b\x7d"⟩])⟩

/-- Witness for C4 at a concrete environment and empty starting
transcript. -/
theorem c4_iteration_ceiling_witness :
    (run c4env ⟨3, false⟩ "sys" "hi" []).1
        = Except.error AgentError.maxIterationsReached
    ∧ (run c4env ⟨3, false⟩ "sys" "hi" []).2.2.1 = 3
    ∧ setupMessages "sys" "hi" [] <+: (run c4env ⟨3, false⟩ "sys" "hi" []).2.1 :=
  c4_iteration_ceiling c4env false "sys" "hi" []
    (fun ms => by
      have h : (c4env.provider ms).2 = [⟨"call_1", "calculator", "\x7b\x7d"⟩] := rfl
      rw [h]
      exact List.cons_ne_nil _ _)

/-! ## Claim C5: confirmation gating -/

/-- Claim C5: a tool invocation whose tool requires confirmation, with
auto-approval off and a rejecting confirmation callback, is never
executed — the execution log is exactly that of the remaining
invocations — and a synthetic rejection tool-result carrying the
invocation's call id is appended, after which processing continues with
the remaining invocations. -/
theorem c5_confirmation_gating (env : RunEnv) (cfg : AgentConfig) (tc : ToolCall)
    (rest : List ToolCall) (msgs : List Message) (log : List (String × String))
    (haa : cfg.autoApprove = false)
    (hreq : env.requiresConfirmation tc.name = true)
    (hconf : env.confirm tc.name tc.arguments = false) :
    processToolCalls env cfg (tc :: rest) msgs log
      = processToolCalls env cfg rest
          (msgs ++ [Message.toolMsg tc.id tc.name rejectedContent]) log
    ∧ Message.toolMsg tc.id tc.name rejectedContent
        ∈ (processToolCalls env cfg (tc :: rest) msgs log).1
    ∧ (processToolCalls env cfg (tc :: rest) msgs log).2
      = (processToolCalls env cfg rest
          (msgs ++ [Message.toolMsg tc.id tc.name rejectedContent]) log).2 := by
  have hcond : (!cfg.autoApprove && env.requiresConfirmation tc.name
      && !(env.confirm tc.name tc.arguments)) = true := by
    rw [haa, hreq, hconf]
    rfl
  have hstep : processToolCalls env cfg (tc :: rest) msgs log
      = processToolCalls env cfg rest
          (msgs ++ [Message.toolMsg tc.id tc.name rejectedContent]) log := by
    simp only [processToolCalls, hcond, if_true]
  refine ⟨hstep, ?_, by rw [hstep]⟩
  rw [hstep]
  have hpre := processToolCalls_extends env cfg rest
    (msgs ++ [Message.toolMsg tc.id tc.name rejectedContent]) log
  exact hpre.subset (by simp)

/-- A registry requiring confirmation with a rejecting callback, for the
C5 witness. -/
def c5env : RunEnv :=
  ⟨fun _ => true, fun _ _ => Except.ok "r", fun _ _ => false, fun _ => ("", [])⟩

/-- Witness for C5 at a concrete rejected invocation. -/
theorem c5_confirmation_gating_witness :
    processToolCalls c5env ⟨3, false⟩ [⟨"id1", "bash", "\x7b\x7d"⟩] [] []
      = processToolCalls c5env ⟨3, false⟩ []
          ([] ++ [Message.toolMsg "id1" "bash" rejectedContent]) []
    ∧ Message.toolMsg "id1" "bash" rejectedContent
        ∈ (processToolCalls c5env ⟨3, false⟩ [⟨"id1", "bash", "\x7b\x7d"⟩] [] []).1
    ∧ (processToolCalls c5env ⟨3, false⟩ [⟨"id1", "bash", "\x7b\x7d"⟩] [] []).2
      = (processToolCalls c5env ⟨3, false⟩ []
          ([] ++ [Message.toolMsg "id1" "bash" rejectedContent]) []).2 :=
  c5_confirmation_gating c5env ⟨3, false⟩ ⟨"id1", "bash", "\x7b\x7d"⟩ [] [] []
    rfl rfl rfl

/-! ## ProviderRegistry.setActiveProvider (registry.ts, lines 524-541)

Providers are modelled by their observable surface: a probe status and
whether the optional `shutdown`/`initialize` members exist.  The calls
the method performs are returned as an ordered event list. -/

structure ProviderStatus where
  available : Bool
  reason : String
deriving DecidableEq, Repr

structure Provider where
  id : String
  status : ProviderStatus
  hasShutdown : Bool
  hasInit : Bool
deriving DecidableEq, Repr

structure RegistryState where
  providers : List (String × Provider)
  active : Option Provider
deriving DecidableEq, Repr

inductive RegistryEvent where
  | evShutdown (id : String)
  | evInit (id : String)
deriving DecidableEq, Repr

/-- `this.providers.get(id)`. -/
def lookupProvider (ps : List (String × Provider)) (id : String) : Option Provider :=
  match ps.find? (fun p => p.1 == id) with
  | some p => some p.2
  | none => none

/-- `setActiveProvider(id)`: look the provider up (throw if missing),
probe it (throw if unavailable), shut the previous active provider down
if it has a `shutdown`, swap, then call `initialize` on the new one.
Returns the thrown-or-ok outcome, the registry state afterwards, and
the `shutdown`/`initialize` calls in order. -/
def setActiveProvider (st : RegistryState) (id : String) :
    (Except String Unit) × RegistryState × List RegistryEvent :=
  match lookupProvider st.providers id with
  | none => (Except.error ("Provider not found: " ++ id), st, [])
  | some p =>
    if p.status.available = false then
      (Except.error ("Provider not available: " ++ p.status.reason), st, [])
    else
      let shutdownEvents :=
        match st.active with
        | some prev => if prev.hasShutdown then [RegistryEvent.evShutdown prev.id] else []
        | none => []
      let initEvents := if p.hasInit then [RegistryEvent.evInit p.id] else []
      (Except.ok (), ⟨st.providers, some p⟩, shutdownEvents ++ initEvents)

/-! ## Claim C6: backend switching -/

/-- Claim C6: `setActiveProvider(id)` on an unregistered or unavailable
provider throws and leaves the active provider unchanged; on success it
emits exactly one `shutdown` call on the previously active provider,
strictly before the `initialize` call on the new provider, and the new
provider becomes active. -/
theorem c6_backend_switching (st : RegistryState) (id : String) :
    (lookupProvider st.providers id = none →
      (setActiveProvider st id).1 = Except.error ("Provider not found: " ++ id)
      ∧ (setActiveProvider st id).2.1 = st)
    ∧ (∀ p, lookupProvider st.providers id = some p → p.status.available = false →
        (setActiveProvider st id).1
          = Except.error ("Provider not available: " ++ p.status.reason)
        ∧ (setActiveProvider st id).2.1 = st)
    ∧ (∀ p prev, lookupProvider st.providers id = some p →
        p.status.available = true → st.active = some prev →
        prev.hasShutdown = true → p.hasInit = true →
        (setActiveProvider st id).1 = Except.ok ()
        ∧ (setActiveProvider st id).2.1.active = some p
        ∧ (setActiveProvider st id).2.1.providers = st.providers
        ∧ (setActiveProvider st id).2.2
          = [RegistryEvent.evShutdown prev.id, RegistryEvent.evInit p.id])
    ∧ (∀ p, lookupProvider st.providers id = some p →
        p.status.available = true → st.active = none → p.hasInit = true →
        (setActiveProvider st id).1 = Except.ok ()
        ∧ (setActiveProvider st id).2.1.active = some p
        ∧ (setActiveProvider st id).2.2 = [RegistryEvent.evInit p.id]) := by
  refine ⟨?_, ?_, ?_, ?_⟩
  · intro h
    simp [setActiveProvider, h]
  · intro p hp hav
    simp [setActiveProvider, hp, hav]
  · intro p prev hp hav hact hsd hini
    simp [setActiveProvider, hp, hav, hact, hsd, hini]
  · intro p hp hav hact hini
    simp [setActiveProvider, hp, hav, hact, hini]

/-- A two-provider registry (an available target, an active predecessor)
for the C6 witness. -/
def c6target : Provider := ⟨"lmstudio", ⟨true, ""⟩, true, true⟩

def c6prev : Provider := ⟨"openai", ⟨true, ""⟩, true, true⟩

def c6state : RegistryState :=
  ⟨[("openai", c6prev), ("lmstudio", c6target)], some c6prev⟩

/-- Witness for C6: the successful switch and the unknown-id failure on
the concrete registry. -/
theorem c6_backend_switching_witness :
    ((setActiveProvider c6state "lmstudio").1 = Except.ok ()
      ∧ (setActiveProvider c6state "lmstudio").2.1.active = some c6target
      ∧ (setActiveProvider c6state "lmstudio").2.1.providers = c6state.providers
      ∧ (setActiveProvider c6state "lmstudio").2.2
        = [RegistryEvent.evShutdown "openai", RegistryEvent.evInit "lmstudio"])
    ∧ ((setActiveProvider c6state "ollama").1
        = Except.error ("Provider not found: " ++ "ollama")
      ∧ (setActiveProvider c6state "ollama").2.1 = c6state) :=
  ⟨(c6_backend_switching c6state "lmstudio").2.2.1 c6target c6prev
      (by decide) (by decide) (by decide) (by decide) (by decide),
   (c6_backend_switching c6state "ollama").1 (by decide)⟩

/-! ## Tool definitions (tools/base.ts) and
ToolRegistry.getDefinitionsLimited (tools/index.ts, lines 76-96), with
the on-device tool ceiling (apple-ai.ts, lines 118-137) -/

/-- The JSON-schema value `zodToJsonSchema` produces from a tool's zod
schema (tools/base.ts): `z.toJSONSchema` is an external zod-v4 function,
so the converted schema is carried as opaque serialized data. -/
structure JsonSchema where
  json : String
deriving DecidableEq, Repr

/-- The `Tool`/`AnyTool` interface of tools/base.ts as the registry sees
it: name, description, optional category, optional priority tier
(1 = core, 2 = important, 3 = extended; absent means 3), optional
confirmation flag, and the parameter schema (already in its
JSON-schema rendering, see `JsonSchema`).  The `execute` member is the
external capability action; it is modelled where its behaviour matters
(`RegisteredTool.exec`, claim C10). -/
structure AnyTool where
  name : String
  description : String
  category : Option String
  priority : Option Nat
  requiresConfirmation : Option Bool
  parameters : JsonSchema
deriving DecidableEq, Repr

/-- The `function` payload of a `ToolDefinition`. -/
structure ToolFunctionDef where
  name : String
  description : String
  parameters : JsonSchema
deriving DecidableEq, Repr

/-- `ToolDefinition` (the OpenRouter wire shape `toolToDefinition`
constructs in tools/base.ts, lines 247-258):
`{type: "function", function: {name, description, parameters}}`. -/
structure ToolDefinition where
  type : String
  function : ToolFunctionDef
deriving DecidableEq, Repr

/-- `toolToDefinition` (tools/base.ts, lines 247-258): wrap the tool's
name, description and JSON-schema parameters in the
`{type: "function", function: {...}}` shape.  The
`zodToJsonSchema(tool.parameters)` call is the identity here because
the model already stores the schema in converted form. -/
def toolToDefinition (t : AnyTool) : ToolDefinition :=
  ⟨"function", ⟨t.name, t.description, t.parameters⟩⟩

/-- `a.priority ?? 3`. -/
def effectivePriority (t : AnyTool) : Nat := t.priority.getD 3

/-- Stable insertion used to model the stable JavaScript
`Array.prototype.sort` with comparator `priorityA - priorityB`. -/
def insertByPriority (t : AnyTool) : List AnyTool → List AnyTool
  | [] => [t]
  | u :: us =>
    if effectivePriority t ≤ effectivePriority u then t :: u :: us
    else u :: insertByPriority t us

/-- `getToolsSortedByPriority`: the registry's tools sorted ascending by
effective priority (stable sort, modelled as stable insertion sort). -/
def getToolsSortedByPriority : List AnyTool → List AnyTool
  | [] => []
  | t :: ts => insertByPriority t (getToolsSortedByPriority ts)

/-- `getDefinitionsLimited(maxTools)`: all definitions when no limit,
otherwise the first `maxTools` of the priority-sorted tools. -/
def getDefinitionsLimited (tools : List AnyTool) (maxTools : Option Nat) :
    List ToolDefinition :=
  match maxTools with
  | none => tools.map toolToDefinition
  | some k => ((getToolsSortedByPriority tools).take k).map toolToDefinition

/-- The Apple adapter's advertised list:
`options.tools.slice(0, MAX_TOOLS)` with `MAX_TOOLS = 10` when tools are
supplied, nothing otherwise. -/
def appleAdvertisedTools (tools : List ToolDefinition) : List ToolDefinition :=
  if tools.isEmpty then [] else tools.take 10

/-! ## Claim C8: tool-count ceiling lemmas -/

theorem insertByPriority_perm (t : AnyTool) :
    ∀ l : List AnyTool, List.Perm (insertByPriority t l) (t :: l) := by
  intro l
  induction l with
  | nil => exact List.Perm.refl _
  | cons u us ih =>
    simp only [insertByPriority]
    by_cases h : effectivePriority t ≤ effectivePriority u
    · rw [if_pos h]
    · rw [if_neg h]
      exact (ih.cons u).trans (List.Perm.swap t u us)

theorem getToolsSortedByPriority_perm :
    ∀ l : List AnyTool, List.Perm (getToolsSortedByPriority l) l := by
  intro l
  induction l with
  | nil => exact List.Perm.refl _
  | cons t ts ih =>
    exact (insertByPriority_perm t _).trans (ih.cons t)

theorem insertByPriority_sorted (t : AnyTool) :
    ∀ l : List AnyTool,
      l.Pairwise (fun a b => effectivePriority a ≤ effectivePriority b) →
      (insertByPriority t l).Pairwise
        (fun a b => effectivePriority a ≤ effectivePriority b) := by
  intro l
  induction l with
  | nil => intro _; exact List.pairwise_singleton ..
  | cons u us ih =>
    intro h
    rw [List.pairwise_cons] at h
    simp only [insertByPriority]
    by_cases hle : effectivePriority t ≤ effectivePriority u
    · rw [if_pos hle]
      rw [List.pairwise_cons]
      refine ⟨?_, List.pairwise_cons.mpr h⟩
      intro b hb
      rcases List.mem_cons.mp hb with hb | hb
      · rw [hb]; exact hle
      · exact Nat.le_trans hle (h.1 b hb)
    · rw [if_neg hle]
      rw [List.pairwise_cons]
      refine ⟨?_, ih h.2⟩
      intro b hb
      have hmem := (insertByPriority_perm t us).mem_iff.mp hb
      rcases List.mem_cons.mp hmem with hb2 | hb2
      · rw [hb2]
        exact Nat.le_of_not_le hle
      · exact h.1 b hb2

theorem getToolsSortedByPriority_sorted :
    ∀ l : List AnyTool,
      (getToolsSortedByPriority l).Pairwise
        (fun a b => effectivePriority a ≤ effectivePriority b) := by
  intro l
  induction l with
  | nil => exact List.Pairwise.nil
  | cons t ts ih => exact insertByPriority_sorted t _ ih

theorem pairwise_take_drop {l : List AnyTool} (k : Nat)
    (h : l.Pairwise (fun a b => effectivePriority a ≤ effectivePriority b)) :
    ∀ a ∈ l.take k, ∀ d ∈ l.drop k, effectivePriority a ≤ effectivePriority d := by
  have h2 : (l.take k ++ l.drop k).Pairwise
      (fun a b => effectivePriority a ≤ effectivePriority b) := by
    rw [List.take_append_drop]
    exact h
  exact (List.pairwise_append.mp h2).2.2

/-- Claim C8: with a ceiling `k`, `getDefinitionsLimited` returns exactly
`min k n` definitions; the kept/dropped split of the priority-sorted
registry never advertises a lower-tier tool while dropping a
higher-tier one; kept and dropped together are a permutation of the
registry; and the on-device adapter passes along at most `MAX_TOOLS = 10`
of the tools supplied to it, the slice again favoring the
higher-priority front of the (sorted) supplied list. -/
theorem c8_tool_count_ceiling (tools : List AnyTool) (k : Nat) :
    (getDefinitionsLimited tools (some k)).length = min k tools.length
    ∧ (∀ a ∈ (getToolsSortedByPriority tools).take k,
        ∀ d ∈ (getToolsSortedByPriority tools).drop k,
          effectivePriority a ≤ effectivePriority d)
    ∧ List.Perm ((getToolsSortedByPriority tools).take k
        ++ (getToolsSortedByPriority tools).drop k) tools
    ∧ (∀ defs : List ToolDefinition, (appleAdvertisedTools defs).length ≤ 10)
    ∧ (∀ a ∈ ((getToolsSortedByPriority tools).take k).take 10,
        ∀ d ∈ ((getToolsSortedByPriority tools).take k).drop 10
            ++ (getToolsSortedByPriority tools).drop k,
          effectivePriority a ≤ effectivePriority d) := by
  have hperm := getToolsSortedByPriority_perm tools
  have hsorted := getToolsSortedByPriority_sorted tools
  refine ⟨?_, pairwise_take_drop k hsorted, ?_, ?_, ?_⟩
  · simp only [getDefinitionsLimited, List.length_map, List.length_take]
    rw [hperm.length_eq]
  · rw [List.take_append_drop]
    exact hperm
  · intro defs
    unfold appleAdvertisedTools
    by_cases h : defs.isEmpty
    · rw [if_pos h]; simp
    · rw [if_neg h]
      calc (defs.take 10).length = min 10 defs.length := List.length_take ..
        _ ≤ 10 := Nat.min_le_left ..
  · intro a ha d hd
    have hsorted_take : ((getToolsSortedByPriority tools).take k).Pairwise
        (fun a b => effectivePriority a ≤ effectivePriority b) :=
      hsorted.sublist (List.take_sublist ..)
    rcases List.mem_append.mp hd with hd1 | hd2
    · exact pairwise_take_drop 10 hsorted_take a ha d hd1
    · have ha2 : a ∈ (getToolsSortedByPriority tools).take k :=
        (List.take_sublist ..).subset ha
      exact pairwise_take_drop k hsorted a ha2 d hd2

/-- Concrete registry slice (a core, an important and an extended tool)
for the C8 witness. -/
def c8calculator : AnyTool :=
  ⟨"calculator", "c", none, some 1, none, ⟨"\x7b\x7d"⟩⟩

def c8gitStatus : AnyTool :=
  ⟨"git_status", "g", none, some 2, none, ⟨"\x7b\x7d"⟩⟩

def c8webFetch : AnyTool :=
  ⟨"web_fetch", "w", none, some 3, none, ⟨"\x7b\x7d"⟩⟩

def c8tools : List AnyTool := [c8webFetch, c8calculator, c8gitStatus]

/-- Witness for C8 with ceiling 2 on the concrete registry: two
definitions survive, and the kept core tool outranks the dropped
extended tool. -/
theorem c8_tool_count_ceiling_witness :
    (getDefinitionsLimited c8tools (some 2)).length = min 2 c8tools.length
    ∧ effectivePriority c8calculator ≤ effectivePriority c8webFetch :=
  ⟨(c8_tool_count_ceiling c8tools 2).1,
   (c8_tool_count_ceiling c8tools 2).2.1 c8calculator (by decide)
     c8webFetch (by decide)⟩

/-! ## AppleAIProvider.chat, non-streaming path (apple-ai.ts, lines
182-212) and createResponse (lines 214-266)

The SDK call is an abstract function of the call index and the
advertised tool list; the list of advertised-tool lists, one entry per
SDK call made, is returned alongside the surfaced response. -/

structure SdkToolCall where
  id : Option String
  name : String
  arguments : String
deriving DecidableEq, Repr

structure AppleAIChatResponse where
  text : List Char
  toolCalls : List SdkToolCall
deriving DecidableEq, Repr

structure AssembledToolCall where
  id : String
  name : String
  arguments : String
deriving DecidableEq, Repr

/-- The assistant message assembled by `createResponse` (the `type:
"function"` tag is constant and omitted). -/
structure AssistantMessage where
  content : Option (List Char)
  toolCalls : List AssembledToolCall
deriving DecidableEq, Repr

/-- Native SDK tool calls, ids defaulted to `call_<position>`. -/
def assembleSdkCalls : Nat → List SdkToolCall → List AssembledToolCall
  | _, [] => []
  | k, tc :: rest =>
    ⟨(match tc.id with
      | some i => i
      | none => "call_" ++ toString k), tc.name, tc.arguments⟩
      :: assembleSdkCalls (k + 1) rest

/-- Inline tool calls parsed from channel tokens, ids
`call_<position>`. -/
def assembleParsedCalls : Nat → List ParsedToolCall → List AssembledToolCall
  | _, [] => []
  | k, tc :: rest =>
    ⟨"call_" ++ toString k, String.mk tc.name, String.mk tc.arguments⟩
      :: assembleParsedCalls (k + 1) rest

/-- `createResponse(rawContent, sdkToolCalls, messages)` without the
usage-tracking side effect: parse channel tokens out of the raw content,
fall back to the raw content when the parse found none, and combine SDK
tool calls with parsed inline ones. -/
def createResponse (rawContent : List Char) (sdkToolCalls : List SdkToolCall) :
    AssistantMessage :=
  let parsed := parseModelOutput rawContent
  let content := if parsed.content.isEmpty then rawContent else parsed.content
  let allToolCalls := assembleSdkCalls 0 sdkToolCalls
      ++ assembleParsedCalls sdkToolCalls.length parsed.toolCalls
  if allToolCalls.isEmpty then ⟨some content, []⟩
  else ⟨(if content.isEmpty then none else some content), allToolCalls⟩

/-- The non-streaming branch of `AppleAIProvider.chat`: one SDK call with
the (ceiling-limited) tools; if its text is the literal `"null"` and it
carries no tool calls, one retry with no tools; surface the result via
`createResponse`. -/
def appleChatNonStreaming
    (backend : Nat → List ToolDefinition → AppleAIChatResponse)
    (tools : List ToolDefinition) :
    AssistantMessage × List (List ToolDefinition) :=
  let appleTools := appleAdvertisedTools tools
  let r0 := backend 0 appleTools
  if r0.text = "null".data ∧ r0.toolCalls = [] then
    let r1 := backend 1 []
    (createResponse r1.text r1.toolCalls, [appleTools, []])
  else
    (createResponse r0.text r0.toolCalls, [appleTools])

/-! ## Claim C7: null-response recovery -/

def c7tool : ToolDefinition := ⟨"function", ⟨"calculator", "c", ⟨"\x7b\x7d"⟩⟩⟩

/-- A backend whose non-streaming response has empty text and no tool
calls. -/
def c7emptyBackend : Nat → List ToolDefinition → AppleAIChatResponse :=
  fun _ _ => ⟨[], []⟩

/-- Counterexample to claim C7 as stated: a response whose text is EMPTY
(rather than the literal `"null"`) and which carries no tool
invocations is NOT retried — exactly one SDK call is made and the empty
response is surfaced directly.  The code's retry condition is
`response.text === "null"` only. -/
theorem c7_counterexample :
    (c7emptyBackend 0 (appleAdvertisedTools [c7tool])).text = []
    ∧ (c7emptyBackend 0 (appleAdvertisedTools [c7tool])).toolCalls = []
    ∧ (appleChatNonStreaming c7emptyBackend [c7tool]).2 = [[c7tool]]
    ∧ (appleChatNonStreaming c7emptyBackend [c7tool]).2.length ≠ 2 := by decide

/-- Claim C7 (amended): for the on-device backend, a non-streaming chat
call whose response text is the LITERAL STRING `"null"` (empty text does
not qualify) and which carries no tool invocations is retried exactly
once with zero advertised tools before the result is surfaced; any
other response — text different from `"null"`, including empty, or any
invocation present — is surfaced without a retry. -/
theorem c7_null_retry_amended
    (backend : Nat → List ToolDefinition → AppleAIChatResponse)
    (tools : List ToolDefinition) (advertised : List ToolDefinition)
    (hadv : advertised = appleAdvertisedTools tools) :
    ((backend 0 advertised).text = "null".data →
      (backend 0 advertised).toolCalls = [] →
      appleChatNonStreaming backend tools
        = (createResponse (backend 1 []).text (backend 1 []).toolCalls,
           [advertised, []]))
    ∧ ((backend 0 advertised).text ≠ "null".data
        ∨ (backend 0 advertised).toolCalls ≠ [] →
      appleChatNonStreaming backend tools
        = (createResponse (backend 0 advertised).text (backend 0 advertised).toolCalls,
           [advertised])) := by
  subst hadv
  constructor
  · intro ht htc
    simp only [appleChatNonStreaming]
    rw [if_pos ⟨ht, htc⟩]
  · intro h
    simp only [appleChatNonStreaming]
    rw [if_neg]
    intro hc
    rcases h with h | h
    · exact h hc.1
    · exact h hc.2

/-- A backend answering `"null"` on the first call and real content on
the retry, for the C7 witness. -/
def c7nullBackend : Nat → List ToolDefinition → AppleAIChatResponse :=
  fun i _ => if i = 0 then ⟨"null".data, []⟩ else ⟨"Paris".data, []⟩

/-- Witness for the amended C7: the `"null"` response triggers exactly
one tool-free retry whose result is surfaced. -/
theorem c7_null_retry_amended_witness :
    appleChatNonStreaming c7nullBackend [c7tool]
      = (createResponse (c7nullBackend 1 []).text (c7nullBackend 1 []).toolCalls,
         [appleAdvertisedTools [c7tool], []]) :=
  (c7_null_retry_amended c7nullBackend [c7tool] (appleAdvertisedTools [c7tool]) rfl).1
    (by decide) (by decide)

/-! ## Local-llama model cache (local-llama.ts, lines 106-107, 187-220,
386-408)

One model path is modelled.  `cache` is the `modelCache` entry's
`refCount` (absent entry = `none`); `loads` counts completed
`llama.loadModel` calls; `holders` lists the provider instances whose
`this.model` is currently non-null.  `initialize` increments an existing
entry or loads-and-inserts with `refCount = 1`; `shutdown` decrements
only when the instance holds a model, deleting the entry when the count
falls to zero. -/

inductive CacheOp where
  | opInit (inst : Nat)
  | opShutdown (inst : Nat)
deriving DecidableEq, Repr

structure CacheState where
  cache : Option Nat
  loads : Nat
  holders : List Nat
deriving DecidableEq, Repr

def initialCacheState : CacheState := ⟨none, 0, []⟩

def cacheStep (s : CacheState) : CacheOp → CacheState
  | CacheOp.opInit i =>
    match s.cache with
    | some n => ⟨some (n + 1), s.loads, s.holders.insert i⟩
    | none => ⟨some 1, s.loads + 1, s.holders.insert i⟩
  | CacheOp.opShutdown i =>
    if i ∈ s.holders then
      ⟨(match s.cache with
        | some n => if n - 1 ≤ 0 then none else some (n - 1)
        | none => none),
       s.loads, s.holders.erase i⟩
    else s

def runCacheOps (s : CacheState) : List CacheOp → CacheState
  | [] => s
  | op :: ops => runCacheOps (cacheStep s op) ops

/-- A well-formed interleaving: an instance only initializes while not
holding a model and only shuts down while holding one (each instance
alternates `initialize`/`shutdown`, instances interleave freely). -/
def legalFrom (s : CacheState) : List CacheOp → Bool
  | [] => true
  | CacheOp.opInit i :: ops =>
    !(s.holders.contains i) && legalFrom (cacheStep s (CacheOp.opInit i)) ops
  | CacheOp.opShutdown i :: ops =>
    s.holders.contains i && legalFrom (cacheStep s (CacheOp.opShutdown i)) ops

def countInits : List CacheOp → Nat
  | [] => 0
  | CacheOp.opInit _ :: ops => countInits ops + 1
  | CacheOp.opShutdown _ :: ops => countInits ops

def countShutdowns : List CacheOp → Nat
  | [] => 0
  | CacheOp.opInit _ :: ops => countShutdowns ops
  | CacheOp.opShutdown _ :: ops => countShutdowns ops + 1

/-- The cache invariant: the entry exists exactly while someone holds the
model, its count is the number of holders, and holders are distinct. -/
def CacheInv (s : CacheState) : Prop :=
  ((s.cache = none) ↔ s.holders = [])
  ∧ (∀ n, s.cache = some n → n = s.holders.length)
  ∧ s.holders.Nodup

/-! ## Claim C9: reference-counting lemmas -/

theorem cacheStep_init_cached (s : CacheState) (i : Nat) {n : Nat}
    (hc : s.cache = some n) :
    cacheStep s (CacheOp.opInit i)
      = ⟨some (n + 1), s.loads, s.holders.insert i⟩ := by
  simp [cacheStep, hc]

theorem cacheStep_init_absent (s : CacheState) (i : Nat)
    (hc : s.cache = none) :
    cacheStep s (CacheOp.opInit i)
      = ⟨some 1, s.loads + 1, s.holders.insert i⟩ := by
  simp [cacheStep, hc]

theorem cacheInv_preserved_init (s : CacheState) (i : Nat)
    (hInv : CacheInv s) (hleg : i ∉ s.holders) :
    CacheInv (cacheStep s (CacheOp.opInit i))
    ∧ (cacheStep s (CacheOp.opInit i)).holders.length = s.holders.length + 1 := by
  obtain ⟨h1, h2, h3⟩ := hInv
  have hins : s.holders.insert i = i :: s.holders := List.insert_of_not_mem hleg
  cases hc : s.cache with
  | some n =>
    rw [cacheStep_init_cached s i hc]
    have hn := h2 n hc
    refine ⟨⟨?_, ?_, ?_⟩, ?_⟩
    · simp [hins]
    · intro m hm
      cases hm
      simp [hins, hn]
    · rw [hins]
      exact List.Nodup.cons hleg h3
    · simp [hins]
  | none =>
    have hempty : s.holders = [] := h1.mp hc
    rw [cacheStep_init_absent s i hc]
    refine ⟨⟨?_, ?_, ?_⟩, ?_⟩
    · simp [hins, hempty]
    · intro m hm
      cases hm
      simp [hins, hempty]
    · rw [hins, hempty]
      exact List.nodup_singleton i
    · simp [hins]

theorem cacheInv_preserved_shutdown (s : CacheState) (i : Nat)
    (hInv : CacheInv s) (hleg : i ∈ s.holders) :
    CacheInv (cacheStep s (CacheOp.opShutdown i))
    ∧ (cacheStep s (CacheOp.opShutdown i)).holders.length + 1 = s.holders.length
    ∧ (cacheStep s (CacheOp.opShutdown i)).loads = s.loads := by
  obtain ⟨h1, h2, h3⟩ := hInv
  have hne : s.holders ≠ [] := by
    intro h
    rw [h] at hleg
    exact List.not_mem_nil i hleg
  have hlen : (s.holders.erase i).length + 1 = s.holders.length := by
    rw [List.length_erase_of_mem hleg]
    have : 0 < s.holders.length := List.length_pos.mpr hne
    omega
  have hpos : 0 < s.holders.length := List.length_pos.mpr hne
  cases hc : s.cache with
  | none => exact absurd (h1.mp hc) hne
  | some n =>
    have hn := h2 n hc
    by_cases hn1 : n - 1 ≤ 0
    · have hstep : cacheStep s (CacheOp.opShutdown i)
          = ⟨none, s.loads, s.holders.erase i⟩ := by
        simp [cacheStep, hleg, hc, hn1]
      have herase : s.holders.erase i = [] := by
        rw [← List.length_eq_zero]
        omega
      rw [hstep]
      refine ⟨⟨?_, ?_, ?_⟩, ?_, rfl⟩
      · show (none : Option Nat) = none ↔ s.holders.erase i = []
        simp [herase]
      · intro m hm
        exact Option.noConfusion hm
      · show (s.holders.erase i).Nodup
        rw [herase]
        exact List.Pairwise.nil
      · show (s.holders.erase i).length + 1 = s.holders.length
        omega
    · have hstep : cacheStep s (CacheOp.opShutdown i)
          = ⟨some (n - 1), s.loads, s.holders.erase i⟩ := by
        simp [cacheStep, hleg, hc, hn1]
      rw [hstep]
      refine ⟨⟨?_, ?_, ?_⟩, ?_, rfl⟩
      · show some (n - 1) = none ↔ s.holders.erase i = []
        constructor
        · intro h
          exact Option.noConfusion h
        · intro h
          exfalso
          rw [h] at hlen
          simp at hlen
          omega
      · intro m hm
        have hm2 : n - 1 = m := Option.some.inj hm
        show m = (s.holders.erase i).length
        omega
      · exact List.Nodup.erase i h3
      · show (s.holders.erase i).length + 1 = s.holders.length
        omega

theorem runCacheOps_aux :
    ∀ (ops : List CacheOp) (s : CacheState), CacheInv s →
      legalFrom s ops = true →
      CacheInv (runCacheOps s ops)
      ∧ (runCacheOps s ops).holders.length + countShutdowns ops
          = s.holders.length + countInits ops := by
  intro ops
  induction ops with
  | nil => intro s hInv _; exact ⟨hInv, rfl⟩
  | cons op rest ih =>
    intro s hInv hleg
    cases op with
    | opInit i =>
      simp only [legalFrom, Bool.and_eq_true, Bool.not_eq_true'] at hleg
      have hmem : i ∉ s.holders := by
        intro h
        have := hleg.1
        simp [h] at this
      obtain ⟨hInv2, hlen2⟩ := cacheInv_preserved_init s i hInv hmem
      obtain ⟨hInv3, hcount⟩ := ih (cacheStep s (CacheOp.opInit i)) hInv2 hleg.2
      refine ⟨hInv3, ?_⟩
      show (runCacheOps (cacheStep s (CacheOp.opInit i)) rest).holders.length
          + countShutdowns rest = s.holders.length + (countInits rest + 1)
      omega
    | opShutdown i =>
      simp only [legalFrom, Bool.and_eq_true] at hleg
      have hmem : i ∈ s.holders := by
        have := hleg.1
        simpa using this
      obtain ⟨hInv2, hlen2, _⟩ := cacheInv_preserved_shutdown s i hInv hmem
      obtain ⟨hInv3, hcount⟩ := ih (cacheStep s (CacheOp.opShutdown i)) hInv2 hleg.2
      refine ⟨hInv3, ?_⟩
      show (runCacheOps (cacheStep s (CacheOp.opShutdown i)) rest).holders.length
          + (countShutdowns rest + 1) = s.holders.length + countInits rest
      omega

/-- Claim C9: along every well-formed interleaving of
`initialize`/`shutdown` cycles across provider instances, starting from
an empty cache: shutdowns never outnumber initializations; the cache
entry's `refCount` (0 when absent) equals completed initializations
minus completed shutdowns; the entry is absent exactly when that
difference is zero; an `initialize` arriving while any instance still
holds the model performs NO model load (it only increments the
refCount); and an `initialize` from the no-holder state loads the model
and inserts the entry with `refCount = 1`. -/
theorem c9_refcount_invariant (ops : List CacheOp) (s : CacheState)
    (hs : s = runCacheOps initialCacheState ops)
    (hleg : legalFrom initialCacheState ops = true) :
    countShutdowns ops ≤ countInits ops
    ∧ s.holders.length = countInits ops - countShutdowns ops
    ∧ ((s.cache = none) ↔ countInits ops = countShutdowns ops)
    ∧ (∀ n, s.cache = some n → n = countInits ops - countShutdowns ops)
    ∧ (∀ i, s.holders ≠ [] →
        (cacheStep s (CacheOp.opInit i)).loads = s.loads)
    ∧ (s.holders = [] → ∀ i,
        (cacheStep s (CacheOp.opInit i)).loads = s.loads + 1
        ∧ (cacheStep s (CacheOp.opInit i)).cache = some 1) := by
  have hInv0 : CacheInv initialCacheState :=
    ⟨by simp [initialCacheState], by intro n h; exact Option.noConfusion h,
     List.Pairwise.nil⟩
  obtain ⟨hInv, hcount⟩ := runCacheOps_aux ops initialCacheState hInv0 hleg
  rw [← hs] at hInv hcount
  obtain ⟨h1, h2, h3⟩ := hInv
  simp only [initialCacheState, List.length_nil] at hcount
  refine ⟨by omega, by omega, ?_, ?_, ?_, ?_⟩
  · rw [h1, ← List.length_eq_zero]
    omega
  · intro n hn
    have := h2 n hn
    omega
  · intro i hne
    cases hc : s.cache with
    | none => exact absurd (h1.mp hc) hne
    | some n => rw [cacheStep_init_cached s i hc]
  · intro hempty i
    have hc : s.cache = none := h1.mpr hempty
    rw [cacheStep_init_absent s i hc]
    exact ⟨rfl, rfl⟩

/-- Witness for C9: two instances load, then both release — the model is
loaded once, the refCount tracks `inits - shutdowns`, and the entry is
gone at the end. -/
theorem c9_refcount_invariant_witness :
    countShutdowns [CacheOp.opInit 0, CacheOp.opInit 1,
        CacheOp.opShutdown 0, CacheOp.opShutdown 1]
      ≤ countInits [CacheOp.opInit 0, CacheOp.opInit 1,
        CacheOp.opShutdown 0, CacheOp.opShutdown 1]
    ∧ (runCacheOps initialCacheState [CacheOp.opInit 0, CacheOp.opInit 1,
        CacheOp.opShutdown 0, CacheOp.opShutdown 1]).holders.length
      = countInits [CacheOp.opInit 0, CacheOp.opInit 1,
          CacheOp.opShutdown 0, CacheOp.opShutdown 1]
        - countShutdowns [CacheOp.opInit 0, CacheOp.opInit 1,
            CacheOp.opShutdown 0, CacheOp.opShutdown 1] :=
  ⟨(c9_refcount_invariant [CacheOp.opInit 0, CacheOp.opInit 1,
      CacheOp.opShutdown 0, CacheOp.opShutdown 1] _ rfl (by decide)).1,
   (c9_refcount_invariant [CacheOp.opInit 0, CacheOp.opInit 1,
      CacheOp.opShutdown 0, CacheOp.opShutdown 1] _ rfl (by decide)).2.1⟩

/-! ## ToolRegistry.execute (tools/index.ts, lines 119-153)

`JSON.parse`, the zod schema (`tool.parameters.parse`) and the tool's own
`execute` are external to the registry; they are parameters of the
embedding, each modelled as a function that either returns or throws
(`Except`, the error carrying the thrown message).  A non-string tool
result is surfaced by the code through `JSON.stringify`; the model takes
the already-serialized string. -/

/-- The tool-role result message `ToolRegistry.execute` resolves to. -/
structure ToolResult where
  toolCallId : String
  role : String
  name : String
  content : String
deriving DecidableEq, Repr

/-- One escape step of `JSON.stringify` on a string value. -/
def jsonEscapeChar (c : Char) : List Char :=
  if c = '"' then ['\\', '"']
  else if c = '\\' then ['\\', '\\']
  else if c = '\n' then ['\\', 'n']
  else if c = '\r' then ['\\', 'r']
  else if c = '\t' then ['\\', 't']
  else [c]

/-- `JSON.stringify({ error: msg })`. -/
def errorContent (msg : String) : String :=
  String.mk ("\x7b\"error\":\"".data ++ (msg.data.map jsonEscapeChar).flatten
    ++ "\"\x7d".data)

/-- A registered tool: its unique name, its zod schema's `parse`
(throwing on validation failure), and its `execute` (which may throw). -/
structure RegisteredTool (Json : Type) where
  name : String
  validate : Json → Except String Json
  exec : Json → Except String String

/-- `ToolRegistry.execute(name, args)`: unknown names, `JSON.parse`
failures, schema-validation failures and exceptions from the tool's own
execute are all caught and serialized into an `{"error": ...}`
tool-result; a successful run returns the tool's result text. -/
def executeTool (Json : Type) (jsParse : String → Except String Json)
    (tools : List (RegisteredTool Json)) (name args : String) : ToolResult :=
  match tools.find? (fun t => t.name == name) with
  | none => ⟨"", "tool", name, errorContent ("Tool \"" ++ name ++ "\" not found")⟩
  | some tool =>
    match jsParse args with
    | Except.error e => ⟨"", "tool", name, errorContent e⟩
    | Except.ok parsed =>
      match tool.validate parsed with
      | Except.error e => ⟨"", "tool", name, errorContent e⟩
      | Except.ok validated =>
        match tool.exec validated with
        | Except.ok result => ⟨"", "tool", name, result⟩
        | Except.error e => ⟨"", "tool", name, errorContent e⟩

/-! ## Claim C10: execute never throws -/

theorem executeTool_shape (Json : Type) (jsParse : String → Except String Json)
    (tools : List (RegisteredTool Json)) (name args : String) :
    ∃ c, executeTool Json jsParse tools name args = ⟨"", "tool", name, c⟩ := by
  unfold executeTool
  cases tools.find? (fun t => t.name == name) with
  | none => exact ⟨_, rfl⟩
  | some tool =>
    dsimp only
    cases jsParse args with
    | error e => exact ⟨_, rfl⟩
    | ok parsed =>
      dsimp only
      cases tool.validate parsed with
      | error e => exact ⟨_, rfl⟩
      | ok validated =>
        dsimp only
        cases tool.exec validated with
        | ok result => exact ⟨_, rfl⟩
        | error e => exact ⟨_, rfl⟩

/-- Claim C10 (implicit): `ToolRegistry.execute` is total — for every
tool name and argument string it resolves to a tool-role result message
carrying the tool's name, and each failure mode (unknown tool, invalid
JSON arguments, schema-validation failure, exception from the tool's
execute) yields a JSON `{"error": ...}` content instead of a propagated
exception, while a successful execution yields the tool's own result. -/
theorem c10_execute_never_throws (Json : Type)
    (jsParse : String → Except String Json)
    (tools : List (RegisteredTool Json)) (name args : String) :
    (executeTool Json jsParse tools name args).role = "tool"
    ∧ (executeTool Json jsParse tools name args).name = name
    ∧ (tools.find? (fun t => t.name == name) = none →
        (executeTool Json jsParse tools name args).content
          = errorContent ("Tool \"" ++ name ++ "\" not found"))
    ∧ (∀ tool e, tools.find? (fun t => t.name == name) = some tool →
        jsParse args = Except.error e →
        (executeTool Json jsParse tools name args).content = errorContent e)
    ∧ (∀ tool parsed e, tools.find? (fun t => t.name == name) = some tool →
        jsParse args = Except.ok parsed → tool.validate parsed = Except.error e →
        (executeTool Json jsParse tools name args).content = errorContent e)
    ∧ (∀ tool parsed validated e,
        tools.find? (fun t => t.name == name) = some tool →
        jsParse args = Except.ok parsed → tool.validate parsed = Except.ok validated →
        tool.exec validated = Except.error e →
        (executeTool Json jsParse tools name args).content = errorContent e)
    ∧ (∀ tool parsed validated result,
        tools.find? (fun t => t.name == name) = some tool →
        jsParse args = Except.ok parsed → tool.validate parsed = Except.ok validated →
        tool.exec validated = Except.ok result →
        (executeTool Json jsParse tools name args).content = result) := by
  obtain ⟨c, hc⟩ := executeTool_shape Json jsParse tools name args
  refine ⟨by rw [hc], by rw [hc], ?_, ?_, ?_, ?_, ?_⟩
  · intro hf
    unfold executeTool
    rw [hf]
  · intro tool e hf hp
    unfold executeTool
    rw [hf]
    dsimp only
    rw [hp]
  · intro tool parsed e hf hp hv
    unfold executeTool
    rw [hf]
    dsimp only
    rw [hp]
    dsimp only
    rw [hv]
  · intro tool parsed validated e hf hp hv hx
    unfold executeTool
    rw [hf]
    dsimp only
    rw [hp]
    dsimp only
    rw [hv]
    dsimp only
    rw [hx]
  · intro tool parsed validated result hf hp hv hx
    unfold executeTool
    rw [hf]
    dsimp only
    rw [hp]
    dsimp only
    rw [hv]
    dsimp only
    rw [hx]

/-- Witness for C10 with `Json := Unit`, a failing parser, and an empty
registry: the unknown-tool error result. -/
theorem c10_execute_never_throws_witness :
    (executeTool Unit (fun _ => Except.error "Unexpected token") [] "web_fetch" "nope").role
        = "tool"
    ∧ (executeTool Unit (fun _ => Except.error "Unexpected token") [] "web_fetch" "nope").content
        = errorContent ("Tool \"" ++ "web_fetch" ++ "\" not found") :=
  ⟨(c10_execute_never_throws Unit (fun _ => Except.error "Unexpected token")
      [] "web_fetch" "nope").1,
   (c10_execute_never_throws Unit (fun _ => Except.error "Unexpected token")
      [] "web_fetch" "nope").2.2.1 rfl⟩

end Clarissa
